import Mathlib

/-!
Verification of the Tamilan-AI repository.

The repository contains two programs:
* `Gemini-Multi-Purpose-App/Backend/main.py` — a FastAPI logging backend that
  accepts generation records, rewrites embedded base64 images into file-backed
  URLs (`save_base64_image`, `convert_to_full_url`, `detect_image_format`,
  `normalize_image_data`, `serialize_log`, the `/api/log` and
  `/api/get_gcm_logs` handlers), and serves paginated history.
* `Amazon-Bedrock/test_bedrock.py` — a one-shot script that invokes a hosted
  model once and prints streamed text deltas.

This file shallowly embeds those programs.  Python strings are modelled by
Lean `String` (operated on through their `List Char` data), the file system
and the uuid generator by an explicit `World` state, the SQLite table by an
explicit list of records, and every fallible operation by `Except`.
-/

set_option maxRecDepth 16384

namespace Tamilan

/-! ### Python string primitives

All string operations used by the source are modelled explicitly over
`List Char` so that they compute by structural recursion and can be reasoned
about by induction.
-/

/-- Leftmost occurrence of `sep` in a character list: `some (before, after)`
splits the list around the first occurrence, `none` when `sep` does not occur.
Models Python's leftmost-match searching (`in`, `str.split`). -/
def firstSplit (sep : List Char) : List Char → Option (List Char × List Char)
  | [] => none
  | c :: rest =>
    if sep.isPrefixOf (c :: rest) then some ([], (c :: rest).drop sep.length)
    else (firstSplit sep rest).map (fun p => (c :: p.1, p.2))

/-- Fuel-driven worker for Python `str.split(sep)` (all occurrences, empty
pieces kept).  Fuel makes the recursion structural; `splitOnList` supplies
enough fuel. -/
def splitGo (sep : List Char) : Nat → List Char → List (List Char)
  | 0, s => [s]
  | fuel + 1, s =>
    if sep ≠ [] ∧ sep.isPrefixOf s then
      [] :: splitGo sep fuel (s.drop sep.length)
    else
      match s with
      | [] => [[]]
      | c :: rest =>
        match splitGo sep fuel rest with
        | [] => [[c]]
        | h :: t => (c :: h) :: t

/-- Python `s.split(sep)` on character lists (for non-empty `sep`). -/
def splitOnList (sep s : List Char) : List (List Char) := splitGo sep (s.length + 1) s

/-- Python `s.startswith(pre)`. -/
def pyStartsWith (s pre : String) : Bool := pre.data.isPrefixOf s.data

/-- Python `sub in s` (substring containment). -/
def pyContains (s sub : String) : Bool := (firstSplit sub.data s.data).isSome

/-- Python `s.split(sep)` for a non-empty separator. -/
def pySplit (s sep : String) : List String := (splitOnList sep.data s.data).map fun l => ⟨l⟩

/-- The ASCII whitespace characters stripped by Python `str.strip()`. -/
def isPySpace (c : Char) : Bool :=
  c == ' ' || c == '\t' || c == '\n' || c == '\r' || c == '\x0b' || c == '\x0c'

/-- Python `s.strip()`. -/
def pyStrip (s : String) : String :=
  ⟨((s.data.dropWhile isPySpace).reverse.dropWhile isPySpace).reverse⟩

/-- Python `str.lower` on one ASCII character. -/
def pyLowerChar (c : Char) : Char :=
  if 'A' ≤ c ∧ c ≤ 'Z' then Char.ofNat (c.toNat + 32) else c

/-- Python `s.lower()`. -/
def pyLower (s : String) : String := ⟨s.data.map pyLowerChar⟩

/-- Python `len(s)`. -/
def pyLen (s : String) : Nat := s.data.length

/-- Python `s.split(",", 1)[1]` when `s` contains a comma, `s` otherwise. -/
def afterFirstComma (s : String) : String :=
  match firstSplit [','] s.data with
  | some p => ⟨p.2⟩
  | none => s

/-! ### base64 decoding (`base64.b64decode` / `binascii.a2b_base64`,
non-strict mode: characters outside the alphabet are discarded, `=` ends the
data once a quad has at least two characters, and a final incomplete quad is
an error). -/

/-- Value of one character of the standard base64 alphabet. -/
def b64CharVal (c : Char) : Option Nat :=
  if 'A' ≤ c ∧ c ≤ 'Z' then some (c.toNat - 65)
  else if 'a' ≤ c ∧ c ≤ 'z' then some (c.toNat - 71)
  else if '0' ≤ c ∧ c ≤ '9' then some (c.toNat + 4)
  else if c = '+' then some 62
  else if c = '/' then some 63
  else none

/-- Streaming base64 decoder: characters, position in the current quad,
pending bits, count of pending pad characters, output accumulator
(reversed). -/
def b64Go : List Char → Nat → Nat → Nat → List Nat → Except String (List Nat)
  | [], quadPos, _, _, acc =>
    if quadPos = 0 then .ok acc.reverse
    else if quadPos = 1 then .error "Invalid number of data characters"
    else .error "Incorrect padding"
  | c :: rest, quadPos, leftchar, pads, acc =>
    if c = '=' then
      if 2 ≤ quadPos ∧ 4 ≤ quadPos + (pads + 1) then .ok acc.reverse
      else b64Go rest quadPos leftchar (pads + 1) acc
    else
      match b64CharVal c with
      | none => b64Go rest quadPos leftchar pads acc
      | some v =>
        let l := leftchar * 64 + v
        match quadPos with
        | 0 => b64Go rest 1 l 0 acc
        | 1 => b64Go rest 2 (l % 16) 0 (l / 16 :: acc)
        | 2 => b64Go rest 3 (l % 4) 0 (l / 4 :: acc)
        | _ => b64Go rest 0 0 0 (l :: acc)

/-- Python `base64.b64decode(s)`: the decoded bytes, or an error. -/
def pyB64decode (s : String) : Except String (List Nat) := b64Go s.data 0 0 0 []

/-! ### Backend data model (`Gemini-Multi-Purpose-App/Backend/main.py`)

`BASE_URL` (the environment-configured fallback, `main.py` line 20-22) is
passed as an explicit parameter to every function that reads it.  The file
system under `uploads/images` and the uuid4 generator are modelled by
`World`: `uuidGen n` is the hex of the `n`-th uuid4 draw (uuid4 is random;
the stream of its draws is the nondeterminism parameter), `counter` is the
number of draws made so far, and `files` the written files, most recent
first. -/

/-- JSON values, for the opaque `metadata` payload (`Dict[str, Any]`). -/
inductive Json where
  | null : Json
  | bool : Bool → Json
  | num : Int → Json
  | str : String → Json
  | arr : List Json → Json
  | obj : List (String × Json) → Json

/-- File-system and uuid state threaded through the backend. -/
structure World where
  uuidGen : Nat → String
  counter : Nat
  files : List (String × List Nat)

/-- A stored input/output list entry: the dict `{"type": …, "data": …,
"name": …}` produced by `InputData.dict()` / `OutputData.dict()` (outputs
have no `name` key, modelled as `name = none`). -/
structure Item where
  type : String
  data : String
  name : Option String
deriving DecidableEq, Repr

/-- `main.py` lines 110-126 / 158 / 185: `base_url if base_url else BASE_URL`
(Python truthiness: `None` and `""` fall back to `BASE_URL`). -/
def get_base_url_or_default (BASE_URL : String) (base_url : Option String) : String :=
  match base_url with
  | some b => if b = "" then BASE_URL else b
  | none => BASE_URL

/-- `main.py` lines 128-164, `save_base64_image`: strip an optional data-URL
prefix (everything up to the first comma), decode the base64 payload, write
the bytes to `uploads/images/<uuid4 hex>.<image_type>` and return the full
URL.  Any exception is re-raised as an HTTP 500 error, modelled by
`.error`. -/
def save_base64_image (BASE_URL base64_data image_type : String)
    (base_url : Option String) (w : World) : Except String (String × World) :=
  let payload := afterFirstComma base64_data
  match pyB64decode payload with
  | .error e => .error ("Failed to save image: " ++ e)
  | .ok image_bytes =>
    let unique_id := w.uuidGen w.counter
    let filename := unique_id ++ "." ++ image_type
    let file_path := "uploads/images/" ++ filename
    let url_base := get_base_url_or_default BASE_URL base_url
    .ok (url_base ++ "/uploads/images/" ++ filename,
      ⟨w.uuidGen, w.counter + 1, (file_path, image_bytes) :: w.files⟩)

/-- `main.py` lines 166-192, `convert_to_full_url`. -/
def convert_to_full_url (BASE_URL relative_url : String) (base_url : Option String) : String :=
  if relative_url = "" then relative_url
  else if pyStartsWith relative_url "http://" ∨ pyStartsWith relative_url "https://" then
    relative_url
  else
    let url_base := get_base_url_or_default BASE_URL base_url
    let rel := if pyStartsWith relative_url "/" then relative_url else "/" ++ relative_url
    url_base ++ rel

/-- `main.py` line 208: the `format_map` lookup with default `"png"`. -/
def formatMapGet (s : String) : String :=
  if s = "jpeg" then "jpg"
  else if s = "jpg" then "jpg"
  else if s = "png" then "png"
  else if s = "webp" then "webp"
  else if s = "gif" then "gif"
  else "png"

/-- `main.py` lines 194-211, `detect_image_format`:
`base64_data.split(";")[0].split("/")[1]` looked up in `format_map`. -/
def detect_image_format (base64_data : String) : String :=
  if pyStartsWith base64_data "data:image/" then
    let format_part := (pySplit ((pySplit base64_data ";").headD "") "/").getD 1 ""
    formatMapGet (pyLower format_part)
  else "png"

/-- `main.py` lines 294-300 (inside `normalize_image_data`): the
corrupted-data repair.  When the stripped data contains both `"data:image/"`
and `"/uploads/images/"`, `data.split("/uploads/images/")[1]` (the piece
between the first and the second occurrence) is glued back onto
`"/uploads/images/"`. -/
def repair_data (data : String) : String :=
  if pyContains data "data:image/" ∧ pyContains data "/uploads/images/" then
    let url_part := pySplit data "/uploads/images/"
    if 1 < url_part.length then "/uploads/images/" ++ url_part.getD 1 "" else data
  else data

/-- `main.py` lines 278-329, `normalize_image_data`. -/
def normalize_image_data (BASE_URL : String) (item : Item) (base_url : Option String)
    (w : World) : Item × World :=
  if item.type = "image" ∧ item.data ≠ "" then
    let data := repair_data (pyStrip item.data)
    if pyStartsWith data "http://" ∨ pyStartsWith data "https://" then (item, w)
    else if pyStartsWith data "/uploads" then
      ({ item with data := convert_to_full_url BASE_URL data base_url }, w)
    else if pyStartsWith data "data:image/" ∨
        (100 < pyLen data ∧ ¬ pyStartsWith data "/" ∧ ¬ pyStartsWith data "http") then
      match save_base64_image BASE_URL data (detect_image_format data) base_url w with
      | .ok (image_url, w') => ({ item with data := image_url }, w')
      | .error _ => (item, w)
    else (item, w)
  else (item, w)

/-! ### The `/api/log` handler (`main.py` lines 213-272) -/

/-- Pydantic `InputData` (lines 51-54). -/
structure InputData where
  type : String
  data : String
  name : Option String
deriving DecidableEq, Repr

/-- Pydantic `OutputData` (lines 56-58): no `name` field. -/
structure OutputData where
  type : String
  data : String
deriving DecidableEq, Repr

/-- `i.dict()` for an input. -/
def InputData.toDict (i : InputData) : Item := ⟨i.type, i.data, i.name⟩

/-- `o.dict()` for an output (no `name` key, modelled as `none`). -/
def OutputData.toDict (o : OutputData) : Item := ⟨o.type, o.data, none⟩

/-- Pydantic `GenerationLogRequest` (lines 60-66). -/
structure GenerationLogRequest where
  functionId : String
  processingTime : Float
  timestamp : String
  inputs : List InputData
  outputs : List OutputData
  metadata : Json

/-- One row of the `generations` table (lines 35-45). `inputs`/`outputs` are
JSON columns and may be null, hence `Option`. -/
structure StoredRecord where
  id : Nat
  function_id : String
  processing_time : Float
  timestamp : String
  inputs : Option (List Item)
  outputs : Option (List Item)
  metadata_info : Json
  created_at : String

/-- The SQLite table state: rows in insertion order (most recent first) and
the next autoincrement primary key. -/
structure DB where
  nextId : Nat
  records : List StoredRecord

/-- Response body of `/api/log` on success (line 269). -/
structure LogResponse where
  status : String
  id : Nat
  message : String
deriving DecidableEq, Repr

/-- The per-item body of the two identical loops in `log_generation`
(lines 221-236 and 240-255): full URLs kept, `/uploads` paths converted,
anything else treated as base64 and saved; a failure of `save_base64_image`
propagates out of the loop. -/
def log_process_item (BASE_URL : String) (base_url : Option String) (item_dict : Item)
    (w : World) : Except String (Item × World) :=
  if item_dict.type = "image" ∧ item_dict.data ≠ "" then
    if pyStartsWith item_dict.data "http://" ∨ pyStartsWith item_dict.data "https://" then
      .ok (item_dict, w)
    else if pyStartsWith item_dict.data "/uploads" then
      .ok ({ item_dict with data := convert_to_full_url BASE_URL item_dict.data base_url }, w)
    else
      let image_format := detect_image_format item_dict.data
      match save_base64_image BASE_URL item_dict.data image_format base_url w with
      | .ok (image_url, w') => .ok ({ item_dict with data := image_url }, w')
      | .error e => .error e
  else .ok (item_dict, w)

/-- The whole loop: processes items in order, threading the world. -/
def log_process_items (BASE_URL : String) (base_url : Option String) :
    List Item → World → Except String (List Item × World)
  | [], w => .ok ([], w)
  | it :: rest, w =>
    match log_process_item BASE_URL base_url it w with
    | .error e => .error e
    | .ok (out, w') =>
      match log_process_items BASE_URL base_url rest w' with
      | .error e => .error e
      | .ok (outs, w'') => .ok (out :: outs, w'')

/-- `main.py` lines 213-272, the `/api/log` handler.  `base_url` is the value
of `get_base_url(request)` and `now` the `created_at` default
(`datetime.now().isoformat()`).  Any exception becomes an HTTP 500 error and
nothing is inserted. -/
def log_generation (BASE_URL : String) (log : GenerationLogRequest) (base_url now : String)
    (db : DB) (w : World) : Except String (LogResponse × DB × World) :=
  match log_process_items BASE_URL (some base_url) (log.inputs.map InputData.toDict) w with
  | .error e => .error e
  | .ok (inputs_data, w1) =>
    match log_process_items BASE_URL (some base_url) (log.outputs.map OutputData.toDict) w1 with
    | .error e => .error e
    | .ok (outputs_data, w2) =>
      let db_record : StoredRecord :=
        ⟨db.nextId, log.functionId, log.processingTime, log.timestamp,
          some inputs_data, some outputs_data, log.metadata, now⟩
      .ok (⟨"success", db.nextId, "Generation details saved to SQLite"⟩,
        ⟨db.nextId + 1, db_record :: db.records⟩, w2)

/-! ### Serialization and the `/api/get_gcm_logs` handler
(`main.py` lines 274-276 and 331-393) -/

/-- The dict built by `serialize_log` (lines 355-364). -/
structure SerializedLog where
  id : Nat
  function_id : String
  processing_time : Float
  timestamp : String
  inputs : List Item
  outputs : List Item
  metadata_info : Json
  created_at : String

/-- The list comprehensions of `serialize_log` lines 344-353, threading the
world through each `normalize_image_data` call. -/
def normalize_items (BASE_URL : String) (base_url : Option String) :
    List Item → World → List Item × World
  | [], w => ([], w)
  | it :: rest, w =>
    let r := normalize_image_data BASE_URL it base_url w
    let rs := normalize_items BASE_URL base_url rest r.2
    (r.1 :: rs.1, rs.2)

/-- `main.py` lines 331-364, `serialize_log`.  `if log.inputs:` is falsy for
both null and the empty list; folding the empty list gives the same `[]`, so
only the null case needs a branch. -/
def serialize_log (BASE_URL : String) (log : StoredRecord) (base_url : Option String)
    (w : World) : SerializedLog × World :=
  let ni := match log.inputs with
    | none => ([], w)
    | some l => normalize_items BASE_URL base_url l w
  let no := match log.outputs with
    | none => ([], ni.2)
    | some l => normalize_items BASE_URL base_url l ni.2
  (⟨log.id, log.function_id, log.processing_time, log.timestamp,
    ni.1, no.1, log.metadata_info, log.created_at⟩, no.2)

/-- Serialize a list of records in order (line 384), threading the world. -/
def serialize_logs_list (BASE_URL : String) (base_url : Option String) :
    List StoredRecord → World → List SerializedLog × World
  | [], w => ([], w)
  | r :: rest, w =>
    let s := serialize_log BASE_URL r base_url w
    let ss := serialize_logs_list BASE_URL base_url rest s.2
    (s.1 :: ss.1, ss.2)

/-- Insert a record into a list sorted by id descending (used to model
`ORDER BY id DESC`). -/
def insertDesc (r : StoredRecord) : List StoredRecord → List StoredRecord
  | [] => [r]
  | x :: xs => if x.id ≤ r.id then r :: x :: xs else x :: insertDesc r xs

/-- `query.order_by(GenerationRecord.id.desc())` (line 375). -/
def orderByIdDesc (rs : List StoredRecord) : List StoredRecord := rs.foldr insertDesc []

/-- `query.offset(skip).limit(limit)` with SQLite semantics: a negative
OFFSET behaves like 0 and a negative LIMIT means no upper bound (SQLite core
language documentation on LIMIT/OFFSET). -/
def sqlOffsetLimit (rs : List StoredRecord) (skip limit : Int) : List StoredRecord :=
  let dropped := if 0 < skip then rs.drop skip.toNat else rs
  if 0 ≤ limit then dropped.take limit.toNat else dropped

/-- Response body of `/api/get_gcm_logs` (lines 386-391). -/
structure LogsResponse where
  total_records : Nat
  page : Int
  size : Int
  logs : List SerializedLog

/-- `main.py` lines 366-393, the `/api/get_gcm_logs` handler.  `page` and
`size` come from `LogPaginationRequest` (lines 274-276) and are arbitrary
ints; `base_url` is `get_base_url(http_request)`. -/
def get_logs (BASE_URL : String) (page size : Int) (base_url : String) (db : DB)
    (w : World) : LogsResponse × World :=
  let skip := (page - 1) * size
  let limit := size
  let total_records := db.records.length
  let logs := sqlOffsetLimit (orderByIdDesc db.records) skip limit
  let s := serialize_logs_list BASE_URL (some base_url) logs w
  (⟨total_records, page, size, s.1⟩, s.2)

/-! ### The Bedrock script (`Amazon-Bedrock/test_bedrock.py`) -/

/-- One decoded stream event: `json.loads(event["chunk"]["bytes"])`, with its
`"type"` field and (possibly absent) `"delta"` dict. -/
structure BedrockChunk where
  type : String
  delta : List (String × String)

/-- Python `d.get(k, dflt)` on a string dict. -/
def dictGet (d : List (String × String)) (k dflt : String) : String :=
  match d.find? (fun p => p.1 == k) with
  | some p => p.2
  | none => dflt

/-- The printing loop, lines 51-54: for each event, print
`chunk["delta"].get("text", "")` exactly when `chunk["type"] ==
"content_block_delta"`.  The result is everything written to stdout. -/
def bedrock_print_events : List BedrockChunk → String
  | [] => ""
  | e :: rest =>
    (if e.type = "content_block_delta" then dictGet e.delta "text" "" else "") ++
      bedrock_print_events rest

/-- The whole script, parameterised by the body of the streaming response:
it builds one request, calls `invoke_model_with_response_stream` exactly once
(the returned `Nat` counts the calls — the script is straight-line code with
no loop or retry around line 46), and prints the deltas. -/
def bedrock_script (responseBody : List BedrockChunk) : Nat × String :=
  (1, bedrock_print_events responseBody)

/-! ### Spec-side helpers

These describe positions of substring occurrences in the spec's vocabulary
("the text after the first occurrence of …") and are used to state the claims
independently of the code's `split`-based computations. -/

/-- The text strictly after the first occurrence of `sub` in `s` (`s` itself
when `sub` does not occur). -/
def specAfterFirst (s sub : String) : String :=
  match firstSplit sub.data s.data with
  | some p => ⟨p.2⟩
  | none => s

/-- The text strictly before the first occurrence of `sub` in `s` (`s` itself
when `sub` does not occur). -/
def specBeforeFirst (s sub : String) : String :=
  match firstSplit sub.data s.data with
  | some p => ⟨p.1⟩
  | none => s

/-- The text after the first occurrence of `sub` in `s`, cut just before the
next occurrence of `sub` (running to the end when `sub` occurs only once). -/
def specBetween (s sub : String) : String := specBeforeFirst (specAfterFirst s sub) sub

/-! ### Basic lemmas about the string primitives -/

theorem data_eq_nil_iff {s : String} : s.data = [] ↔ s = "" := by
  constructor
  · intro h
    exact String.ext h
  · intro h
    subst h
    rfl

theorem pyStartsWith_iff {s pre : String} : pyStartsWith s pre ↔ pre.data <+: s.data := by
  simp [pyStartsWith, List.isPrefixOf_iff_prefix]

theorem pyStartsWith_mono {s p q : String} (hqp : q.data <+: p.data)
    (h : pyStartsWith s p) : pyStartsWith s q := by
  rw [pyStartsWith_iff] at h ⊢
  exact hqp.trans h

theorem pyStartsWith_excl {s p q : String}
    (hpq : ¬ p.data <+: q.data) (hqp : ¬ q.data <+: p.data)
    (h : pyStartsWith s p) : ¬ pyStartsWith s q := by
  rw [pyStartsWith_iff] at h
  intro h2
  rw [pyStartsWith_iff] at h2
  rcases List.prefix_or_prefix_of_prefix h h2 with h3 | h3
  · exact hpq h3
  · exact hqp h3

theorem pyStartsWith_ne_empty {s p : String} (hp : p ≠ "") (h : pyStartsWith s p) :
    s ≠ "" := by
  rw [pyStartsWith_iff] at h
  intro hs
  subst hs
  exact hp (data_eq_nil_iff.mp (List.prefix_nil.mp h))

theorem pyStartsWith_append {b r p : String} (h : pyStartsWith b p) :
    pyStartsWith (b ++ r) p := by
  rw [pyStartsWith_iff] at h ⊢
  rw [String.data_append]
  exact h.trans (List.prefix_append _ _)

theorem pyContains_of_startsWith {s p : String} (hp : p ≠ "") (h : pyStartsWith s p) :
    pyContains s p := by
  unfold pyContains
  cases hs : s.data with
  | nil =>
    rw [pyStartsWith_iff, hs] at h
    exact absurd (data_eq_nil_iff.mp (List.prefix_nil.mp h)) hp
  | cons c rest =>
    unfold pyStartsWith at h
    rw [hs] at h
    simp [firstSplit, h]

theorem splitGo_succ (sep : List Char) (f : Nat) (s : List Char) :
    splitGo sep (f + 1) s =
      if sep ≠ [] ∧ sep.isPrefixOf s then [] :: splitGo sep f (s.drop sep.length)
      else
        match s with
        | [] => [[]]
        | c :: rest =>
          match splitGo sep f rest with
          | [] => [[c]]
          | h :: t => (c :: h) :: t := rfl

theorem splitGo_ne_nil (sep : List Char) (fuel : Nat) (s : List Char) :
    splitGo sep fuel s ≠ [] := by
  cases fuel with
  | zero => simp [splitGo]
  | succ f =>
    rw [splitGo_succ]
    split
    · simp
    · cases s with
      | nil => simp
      | cons c rest =>
        cases h : splitGo sep f rest with
        | nil => simp [h]
        | cons a l => simp [h]

theorem splitOnList_ne_nil (sep s : List Char) : splitOnList sep s ≠ [] :=
  splitGo_ne_nil sep (s.length + 1) s

theorem splitGo_congr (sep : List Char) (hsep : sep ≠ []) :
    ∀ f1 f2 s, s.length < f1 → s.length < f2 → splitGo sep f1 s = splitGo sep f2 s := by
  intro f1
  induction f1 with
  | zero =>
    intro f2 s h1
    exact absurd h1 (Nat.not_lt_zero _)
  | succ g1 ih =>
    intro f2 s h1 h2
    cases f2 with
    | zero => exact absurd h2 (Nat.not_lt_zero _)
    | succ g2 =>
      rw [splitGo_succ, splitGo_succ]
      by_cases hcond : sep ≠ [] ∧ sep.isPrefixOf s
      · rw [if_pos hcond, if_pos hcond]
        have hseplen : 1 ≤ sep.length := List.length_pos.mpr hsep
        have hsne : s ≠ [] := by
          rintro rfl
          have := List.isPrefixOf_iff_prefix.mp hcond.2
          exact hsep (List.prefix_nil.mp this)
        have hpos : 0 < s.length := List.length_pos.mpr hsne
        have hd1 : (s.drop sep.length).length < g1 := by
          rw [List.length_drop]; omega
        have hd2 : (s.drop sep.length).length < g2 := by
          rw [List.length_drop]; omega
        rw [ih g2 (s.drop sep.length) hd1 hd2]
      · rw [if_neg hcond, if_neg hcond]
        cases s with
        | nil => rfl
        | cons c rest =>
          have hr1 : rest.length < g1 := by
            simp only [List.length_cons] at h1; omega
          have hr2 : rest.length < g2 := by
            simp only [List.length_cons] at h2; omega
          change (match splitGo sep g1 rest with
              | [] => [[c]]
              | h :: t => (c :: h) :: t) =
            (match splitGo sep g2 rest with
              | [] => [[c]]
              | h :: t => (c :: h) :: t)
          rw [ih g2 rest hr1 hr2]

theorem splitOnList_eq (sep : List Char) (hsep : sep ≠ []) (s : List Char) :
    splitOnList sep s = (match firstSplit sep s with
      | none => [s]
      | some p => p.1 :: splitOnList sep p.2) := by
  induction s with
  | nil =>
    have hpre : ¬ (sep ≠ [] ∧ sep.isPrefixOf ([] : List Char)) := by
      rintro ⟨_, hp⟩
      exact hsep (List.prefix_nil.mp (List.isPrefixOf_iff_prefix.mp hp))
    rw [show splitOnList sep [] = splitGo sep 1 [] from rfl, splitGo_succ, if_neg hpre]
    simp [firstSplit]
  | cons c rest ih =>
    rw [show splitOnList sep (c :: rest) = splitGo sep (rest.length + 1 + 1) (c :: rest) from rfl,
      splitGo_succ]
    by_cases hp : sep.isPrefixOf (c :: rest)
    · have hcond : sep ≠ [] ∧ sep.isPrefixOf (c :: rest) := ⟨hsep, hp⟩
      rw [if_pos hcond]
      have hseplen : 1 ≤ sep.length := List.length_pos.mpr hsep
      have hdrop : ((c :: rest).drop sep.length).length < rest.length + 1 := by
        rw [List.length_drop]
        simp only [List.length_cons]
        omega
      rw [splitGo_congr sep hsep (rest.length + 1) (((c :: rest).drop sep.length).length + 1)
        ((c :: rest).drop sep.length) hdrop (Nat.lt_succ_self _)]
      simp only [firstSplit, if_pos hp]
      rfl
    · have hcond : ¬ (sep ≠ [] ∧ sep.isPrefixOf (c :: rest)) := by
        rintro ⟨_, h⟩
        exact hp h
      rw [if_neg hcond]
      change (match splitGo sep (rest.length + 1) rest with
          | [] => [[c]]
          | h :: t => (c :: h) :: t) = _
      rw [show splitGo sep (rest.length + 1) rest = splitOnList sep rest from rfl, ih]
      simp only [firstSplit, if_neg hp]
      cases hfs : firstSplit sep rest with
      | none => simp
      | some p => simp

theorem firstSplit_single (c : Char) (s : List Char) :
    firstSplit [c] s =
      if c ∈ s then some (s.takeWhile (fun x => x != c), (s.dropWhile (fun x => x != c)).tail)
      else none := by
  induction s with
  | nil => simp [firstSplit]
  | cons x xs ih =>
    by_cases hcx : c = x
    · subst hcx
      have hpre : [c].isPrefixOf (c :: xs) = true := by simp [List.isPrefixOf]
      simp [firstSplit, hpre]
    · have hpre : ¬ ([c].isPrefixOf (x :: xs) = true) := by
        simp [List.isPrefixOf]
        exact hcx
      have hxc : (x != c) = true := by
        simp only [bne_iff_ne, ne_eq]
        exact fun h => hcx h.symm
      simp only [firstSplit, if_neg hpre, ih]
      by_cases hmem : c ∈ xs
      · have hmem2 : c ∈ x :: xs := List.mem_cons_of_mem _ hmem
        rw [if_pos hmem, if_pos hmem2]
        simp [List.takeWhile_cons, List.dropWhile_cons, hxc]
      · have hmem2 : c ∉ x :: xs := by
          simp only [List.mem_cons, not_or]
          exact ⟨hcx, hmem⟩
        rw [if_neg hmem, if_neg hmem2]
        rfl

theorem splitOnList_head (c : Char) (s : List Char) :
    (splitOnList [c] s).headD [] = s.takeWhile (fun x => x != c) := by
  rw [splitOnList_eq [c] (by simp) s, firstSplit_single]
  by_cases hc : c ∈ s
  · rw [if_pos hc]
    simp
  · rw [if_neg hc]
    simp only [List.headD_cons]
    symm
    rw [List.takeWhile_eq_self_iff]
    intro x hx
    simp only [bne_iff_ne, ne_eq]
    intro h
    subst h
    exact hc hx

theorem takeWhile_append_cons (c : Char) (a t : List Char) (ha : c ∉ a) :
    (a ++ c :: t).takeWhile (fun x => x != c) = a := by
  induction a with
  | nil => simp [List.takeWhile_cons]
  | cons x xs ih =>
    have hx : (x != c) = true := by
      simp only [bne_iff_ne, ne_eq]
      intro h
      exact ha (h ▸ List.mem_cons_self x xs)
    simp only [List.cons_append, List.takeWhile_cons, hx, if_true]
    rw [ih (fun h => ha (List.mem_cons_of_mem _ h))]

theorem dropWhile_append_cons (c : Char) (a t : List Char) (ha : c ∉ a) :
    ((a ++ c :: t).dropWhile (fun x => x != c)).tail = t := by
  induction a with
  | nil => simp [List.dropWhile_cons]
  | cons x xs ih =>
    have hx : (x != c) = true := by
      simp only [bne_iff_ne, ne_eq]
      intro h
      exact ha (h ▸ List.mem_cons_self x xs)
    simp only [List.cons_append, List.dropWhile_cons, hx, if_true]
    exact ih (fun h => ha (List.mem_cons_of_mem _ h))

theorem splitOnList_single_append (c : Char) (a t : List Char) (ha : c ∉ a) :
    splitOnList [c] (a ++ c :: t) = a :: splitOnList [c] t := by
  rw [splitOnList_eq [c] (by simp), firstSplit_single]
  have hc : c ∈ a ++ c :: t := by simp
  rw [if_pos hc, takeWhile_append_cons c a t ha, dropWhile_append_cons c a t ha]

theorem pySplit_headD {s sep : String} {c : Char} (h : sep.data = [c]) :
    (pySplit s sep).headD "" = ⟨s.data.takeWhile (fun x => x != c)⟩ := by
  unfold pySplit
  rw [h]
  cases hq : splitOnList [c] s.data with
  | nil => exact absurd hq (splitOnList_ne_nil _ _)
  | cons y t =>
    simp only [List.map_cons, List.headD_cons]
    have hh := splitOnList_head c s.data
    rw [hq, List.headD_cons] at hh
    rw [hh]

theorem getD_zero_map_mk (L : List (List Char)) (hL : L ≠ []) :
    (L.map (fun l => (⟨l⟩ : String))).getD 0 "" = ⟨L.headD []⟩ := by
  cases L with
  | nil => exact absurd rfl hL
  | cons a l => simp

theorem splitOnList_headD (sep s : List Char) (hsep : sep ≠ []) :
    (splitOnList sep s).headD [] =
      (match firstSplit sep s with | none => s | some q => q.1) := by
  rw [splitOnList_eq sep hsep s]
  cases firstSplit sep s with
  | none => rfl
  | some q => rfl

theorem pySplit_getD_one {s sub : String} (hsub : sub.data ≠ []) (h : pyContains s sub) :
    (pySplit s sub).getD 1 "" = specBetween s sub ∧ 1 < (pySplit s sub).length := by
  unfold pyContains at h
  obtain ⟨p, hp⟩ := Option.isSome_iff_exists.mp h
  unfold pySplit
  rw [splitOnList_eq sub.data hsub s.data, hp]
  simp only [List.map_cons, List.getD_cons_succ, List.length_cons]
  constructor
  · rw [getD_zero_map_mk _ (splitOnList_ne_nil _ _)]
    rw [splitOnList_headD sub.data p.2 hsub]
    unfold specBetween
    have ha : specAfterFirst s sub = ⟨p.2⟩ := by
      unfold specAfterFirst
      rw [hp]
    rw [ha]
    show (⟨match firstSplit sub.data p.2 with | none => p.2 | some q => q.1⟩ : String) =
      (match firstSplit sub.data p.2 with
        | some q => (⟨q.1⟩ : String)
        | none => (⟨p.2⟩ : String))
    cases firstSplit sub.data p.2 with
    | none => rfl
    | some q => rfl
  · have hlen : 0 < (splitOnList sub.data p.2).length :=
      List.length_pos.mpr (splitOnList_ne_nil _ _)
    simp only [List.length_map]
    omega

/-- The repair step of `normalize_image_data`, characterised in the spec's
vocabulary: when the data contains both markers it becomes
`"/uploads/images/"` glued to the text between the first and the second
occurrence of `"/uploads/images/"`. -/
theorem repair_eq_spec (d : String) :
    repair_data d =
      (if pyContains d "data:image/" ∧ pyContains d "/uploads/images/" then
        "/uploads/images/" ++ specBetween d "/uploads/images/"
      else d) := by
  unfold repair_data
  by_cases h : pyContains d "data:image/" ∧ pyContains d "/uploads/images/"
  · rw [if_pos h, if_pos h]
    obtain ⟨he, hl⟩ := @pySplit_getD_one d "/uploads/images/" (by decide) h.2
    rw [if_pos hl, he]
  · rw [if_neg h, if_neg h]

/-! ### Claim C5 — `detect_image_format` -/

/-- The claim's reading of `detect_image_format`: the subtype is all of the
text between the `"data:image/"` prefix and the first `";"` (to the end of
the string when there is no `";"`), lowercased and looked up in the format
map. -/
def detect_image_format_claimed (s : String) : String :=
  if pyStartsWith s "data:image/" then
    formatMapGet (pyLower ⟨(s.data.drop 11).takeWhile (fun c => c != ';')⟩)
  else "png"

/-- What the code actually computes: the candidate subtype stops at the first
`"/"` or `";"` after the prefix, whichever comes first. -/
def detect_image_format_spec (s : String) : String :=
  if pyStartsWith s "data:image/" then
    formatMapGet (pyLower ⟨(s.data.drop 11).takeWhile (fun c => c != '/' && c != ';')⟩)
  else "png"

/-- C5, counterexample: on `"data:image/jpeg/x;base64,QUJD"` the code returns
`"jpg"` (it reads the subtype `"jpeg"`, the text up to the next `"/"`), while
the claim's description — the subtype between the prefix and the first `";"`,
here `"jpeg/x"`, normalized with unknown subtypes mapping to `"png"` —
yields `"png"`. -/
theorem C5_counterexample :
    detect_image_format "data:image/jpeg/x;base64,QUJD" = "jpg" ∧
    detect_image_format_claimed "data:image/jpeg/x;base64,QUJD" = "png" ∧
    detect_image_format "data:image/jpeg/x;base64,QUJD" ≠
      detect_image_format_claimed "data:image/jpeg/x;base64,QUJD" := by
  refine ⟨?_, ?_, ?_⟩ <;> decide

/-- C5 (amended): for every string `s`, `detect_image_format` returns `"png"`
unless `s` starts with `"data:image/"`, in which case it returns the text
between that prefix and the first `"/"` or `";"` that follows it (the whole
remainder when neither occurs), lowercased and normalized by the format map
(`"jpeg"`/`"jpg"` ↦ `"jpg"`; `"png"`, `"webp"`, `"gif"` ↦ themselves; anything
else ↦ `"png"`). -/
theorem C5_detect_image_format (s : String) :
    detect_image_format s = detect_image_format_spec s := by
  unfold detect_image_format detect_image_format_spec
  by_cases hpre : pyStartsWith s "data:image/"
  · rw [if_pos hpre, if_pos hpre]
    obtain ⟨rest, hrest⟩ := pyStartsWith_iff.mp hpre
    have h0 : (pySplit s ";").headD "" = ⟨s.data.takeWhile (fun x => x != ';')⟩ :=
      pySplit_headD rfl
    rw [h0]
    have htw : s.data.takeWhile (fun x => x != ';') =
        "data:image/".data ++ rest.takeWhile (fun x => x != ';') := by
      rw [← hrest, List.takeWhile_append, if_pos (by decide)]
    rw [htw]
    have hdrop : s.data.drop 11 = rest := by
      rw [← hrest]
      rw [show (11 : Nat) = "data:image/".data.length from rfl]
      exact List.drop_left _ _
    rw [hdrop]
    have hglue : "data:image/".data ++ rest.takeWhile (fun x => x != ';') =
        "data:image".data ++ '/' :: rest.takeWhile (fun x => x != ';') := by
      rw [show ("data:image/".data : List Char) = "data:image".data ++ ['/'] by decide]
      rw [List.append_assoc]
      rfl
    have hsplit : pySplit (⟨"data:image/".data ++ rest.takeWhile (fun x => x != ';')⟩ : String) "/" =
        (⟨"data:image".data⟩ : String) ::
          (splitOnList ['/'] (rest.takeWhile (fun x => x != ';'))).map (fun l => (⟨l⟩ : String)) := by
      unfold pySplit
      show (splitOnList ['/'] ("data:image/".data ++ rest.takeWhile (fun x => x != ';'))).map _ = _
      rw [hglue, splitOnList_single_append '/' _ _ (by decide)]
      rfl
    rw [hsplit]
    rw [show ∀ (x : String) (L : List String), (x :: L).getD 1 "" = L.getD 0 "" from
      fun x L => List.getD_cons_succ]
    rw [getD_zero_map_mk _ (splitOnList_ne_nil _ _)]
    rw [splitOnList_headD ['/'] _ (by simp)]
    rw [firstSplit_single]
    have hcomb : (rest.takeWhile (fun x => x != ';')).takeWhile (fun x => x != '/') =
        rest.takeWhile (fun c => c != '/' && c != ';') := by
      rw [List.takeWhile_takeWhile]
      congr 1
      funext a
      cases h1 : a != '/' <;> cases h2 : a != ';' <;> simp [h1, h2]
    by_cases hmem : '/' ∈ rest.takeWhile (fun x => x != ';')
    · rw [if_pos hmem]
      show formatMapGet (pyLower ⟨(rest.takeWhile (fun x => x != ';')).takeWhile
        (fun x => x != '/')⟩) = _
      rw [hcomb]
    · rw [if_neg hmem]
      show formatMapGet (pyLower ⟨rest.takeWhile (fun x => x != ';')⟩) = _
      have hself : (rest.takeWhile (fun x => x != ';')).takeWhile (fun x => x != '/') =
          rest.takeWhile (fun x => x != ';') := by
        rw [List.takeWhile_eq_self_iff]
        intro x hx
        simp only [bne_iff_ne, ne_eq]
        intro hcontra
        subst hcontra
        exact hmem hx
      rw [← hself, hcomb]
  · rw [if_neg hpre, if_neg hpre]

/-! ### Claim C8 — `convert_to_full_url` is idempotent -/

/-- C8: `convert_to_full_url` is the identity on absolute URLs (strings
starting with `"http://"` or `"https://"`) and on the empty string, and for
every `base_url` starting with `"http://"` or `"https://"` it is idempotent:
applying it twice with the same base gives the same result as applying it
once. -/
theorem C8_convert_to_full_url_idempotent (BASE_URL : String) :
    (∀ s bu, (pyStartsWith s "http://" ∨ pyStartsWith s "https://") →
      convert_to_full_url BASE_URL s bu = s) ∧
    (∀ bu, convert_to_full_url BASE_URL "" bu = "") ∧
    (∀ s b, (pyStartsWith b "http://" ∨ pyStartsWith b "https://") →
      convert_to_full_url BASE_URL (convert_to_full_url BASE_URL s (some b)) (some b) =
        convert_to_full_url BASE_URL s (some b)) := by
  have habs : ∀ s bu, (pyStartsWith s "http://" ∨ pyStartsWith s "https://") →
      convert_to_full_url BASE_URL s bu = s := by
    intro s bu h
    unfold convert_to_full_url
    by_cases hs : s = ""
    · rw [if_pos hs]
    · rw [if_neg hs, if_pos h]
  have hempty : ∀ bu, convert_to_full_url BASE_URL "" bu = "" := by
    intro bu
    unfold convert_to_full_url
    rw [if_pos rfl]
  refine ⟨habs, hempty, ?_⟩
  intro s b hb
  have hbne : b ≠ "" := by
    rcases hb with h | h
    · exact pyStartsWith_ne_empty (by decide) h
    · exact pyStartsWith_ne_empty (by decide) h
  have hbase : get_base_url_or_default BASE_URL (some b) = b := by
    show (if b = "" then BASE_URL else b) = b
    rw [if_neg hbne]
  by_cases hs : s = ""
  · subst hs
    rw [hempty, hempty]
  · by_cases habs0 : pyStartsWith s "http://" ∨ pyStartsWith s "https://"
    · rw [habs s (some b) habs0]
      exact habs s (some b) habs0
    · have hinner : convert_to_full_url BASE_URL s (some b) =
          b ++ (if pyStartsWith s "/" then s else "/" ++ s) := by
        simp only [convert_to_full_url, if_neg hs, if_neg habs0, hbase]
      rw [hinner]
      apply habs
      rcases hb with h | h
      · exact Or.inl (pyStartsWith_append h)
      · exact Or.inr (pyStartsWith_append h)

/-- Witness for C8 at concrete inputs. -/
theorem C8_witness :
    convert_to_full_url "http://base" (convert_to_full_url "http://base" "/uploads/x"
        (some "http://h")) (some "http://h") =
      convert_to_full_url "http://base" "/uploads/x" (some "http://h") ∧
    convert_to_full_url "http://base" "https://y" none = "https://y" ∧
    convert_to_full_url "http://base" "" (some "http://h") = "" :=
  ⟨(C8_convert_to_full_url_idempotent "http://base").2.2 "/uploads/x" "http://h"
      (Or.inl (by decide)),
   (C8_convert_to_full_url_idempotent "http://base").1 "https://y" none (Or.inr (by decide)),
   (C8_convert_to_full_url_idempotent "http://base").2.1 (some "http://h")⟩

/-! ### Claim C7 — the Bedrock streaming loop -/

/-- C7: for every sequence of stream events, the script prints exactly the
`"text"` fields of the events whose chunk type is `"content_block_delta"`
(the empty string when a delta has no `"text"` field), concatenated in event
order with no separators, and nothing for other chunk types; and it sends
exactly one inference request. -/
theorem C7_bedrock_stream (events : List BedrockChunk) :
    bedrock_script events =
      (1, ((events.filter (fun e => e.type == "content_block_delta")).map
          (fun e => dictGet e.delta "text" "")).foldr (fun a b => a ++ b) "") := by
  unfold bedrock_script
  have hprint : ∀ evs : List BedrockChunk, bedrock_print_events evs =
      ((evs.filter (fun e => e.type == "content_block_delta")).map
        (fun e => dictGet e.delta "text" "")).foldr (fun a b => a ++ b) "" := by
    intro evs
    induction evs with
    | nil => rfl
    | cons e rest ih =>
      by_cases he : e.type = "content_block_delta"
      · simp [bedrock_print_events, List.filter_cons, he, ih]
      · simp [bedrock_print_events, List.filter_cons, he, ih, String.empty_append]
  rw [hprint]

/-! ### Prefix-disjointness helpers -/

theorem prefixOfString {p q : String} (h : q.data.isPrefixOf p.data = true) :
    q.data <+: p.data :=
  List.isPrefixOf_iff_prefix.mp h

theorem pyStartsWith_excl2 {s p q : String}
    (hpq : p.data.isPrefixOf q.data = false) (hqp : q.data.isPrefixOf p.data = false)
    (h : pyStartsWith s p) : ¬ pyStartsWith s q := by
  apply pyStartsWith_excl ?_ ?_ h
  · intro hc
    rw [← List.isPrefixOf_iff_prefix] at hc
    rw [hc] at hpq
    cases hpq
  · intro hc
    rw [← List.isPrefixOf_iff_prefix] at hc
    rw [hc] at hqp
    cases hqp

/-! ### Claim C9 — short raw payloads are left unconverted -/

/-- C9: for every image item with non-empty data whose stripped data does not
contain `"data:image/"`, does not start with `"/"` or `"http"`, and is at
most 100 characters long, `normalize_image_data` returns the item unchanged
and writes nothing. -/
theorem C9_short_raw_base64_unchanged (BASE_URL : String) (item : Item) (bu : Option String)
    (w : World)
    (h1 : item.type = "image") (h2 : item.data ≠ "")
    (hc : ¬ pyContains (pyStrip item.data) "data:image/")
    (hs : ¬ pyStartsWith (pyStrip item.data) "/")
    (hh : ¬ pyStartsWith (pyStrip item.data) "http")
    (hl : pyLen (pyStrip item.data) ≤ 100) :
    normalize_image_data BASE_URL item bu w = (item, w) := by
  have hrep : repair_data (pyStrip item.data) = pyStrip item.data := by
    unfold repair_data
    rw [if_neg (fun hcc => hc hcc.1)]
  have hb1 : ¬ (pyStartsWith (pyStrip item.data) "http://" ∨
      pyStartsWith (pyStrip item.data) "https://") := by
    rintro (h | h)
    · exact hh (pyStartsWith_mono (prefixOfString (by decide)) h)
    · exact hh (pyStartsWith_mono (prefixOfString (by decide)) h)
  have hb2 : ¬ pyStartsWith (pyStrip item.data) "/uploads" := fun h =>
    hs (pyStartsWith_mono (prefixOfString (by decide)) h)
  have hb3 : ¬ (pyStartsWith (pyStrip item.data) "data:image/" ∨
      (100 < pyLen (pyStrip item.data) ∧ ¬ pyStartsWith (pyStrip item.data) "/" ∧
        ¬ pyStartsWith (pyStrip item.data) "http")) := by
    rintro (h | ⟨hlen, _, _⟩)
    · exact hc (pyContains_of_startsWith (by decide) h)
    · omega
  simp only [normalize_image_data, if_pos (And.intro h1 h2), hrep,
    if_neg hb1, if_neg hb2, if_neg hb3]

/-- Witness for C9: a 8-character raw base64 payload survives normalization
untouched. -/
theorem C9_witness :
    normalize_image_data "http://base" ⟨"image", "c2hvcnQ=", none⟩ (some "http://h")
        ⟨fun _ => "u", 0, []⟩ =
      (⟨"image", "c2hvcnQ=", none⟩, ⟨fun _ => "u", 0, []⟩) :=
  C9_short_raw_base64_unchanged "http://base" ⟨"image", "c2hvcnQ=", none⟩ (some "http://h")
    ⟨fun _ => "u", 0, []⟩ rfl (by decide) (by decide) (by decide) (by decide) (by decide)

/-! ### Claim C2 — conversion failures are swallowed -/

/-- C2: for every image item whose (stripped, repaired) data is classified as
base64 by `normalize_image_data`, if `save_base64_image` fails, the item is
returned unchanged, the world is untouched, and no exception propagates
(`normalize_image_data` is a total function returning the original item). -/
theorem C2_normalize_swallows (BASE_URL : String) (item : Item) (bu : Option String)
    (w : World)
    (h1 : item.type = "image") (h2 : item.data ≠ "")
    (h3 : pyStartsWith (repair_data (pyStrip item.data)) "data:image/" ∨
      (100 < pyLen (repair_data (pyStrip item.data)) ∧
        ¬ pyStartsWith (repair_data (pyStrip item.data)) "/" ∧
        ¬ pyStartsWith (repair_data (pyStrip item.data)) "http"))
    (e : String)
    (herr : save_base64_image BASE_URL (repair_data (pyStrip item.data))
      (detect_image_format (repair_data (pyStrip item.data))) bu w = .error e) :
    normalize_image_data BASE_URL item bu w = (item, w) := by
  have hnh : ¬ (pyStartsWith (repair_data (pyStrip item.data)) "http://" ∨
      pyStartsWith (repair_data (pyStrip item.data)) "https://") := by
    rcases h3 with h | ⟨_, _, hh⟩
    · rintro (hx | hx)
      · exact pyStartsWith_excl2 (by decide) (by decide) h hx
      · exact pyStartsWith_excl2 (by decide) (by decide) h hx
    · rintro (hx | hx)
      · exact hh (pyStartsWith_mono (prefixOfString (by decide)) hx)
      · exact hh (pyStartsWith_mono (prefixOfString (by decide)) hx)
  have hnu : ¬ pyStartsWith (repair_data (pyStrip item.data)) "/uploads" := by
    rcases h3 with h | ⟨_, hs, _⟩
    · exact pyStartsWith_excl2 (by decide) (by decide) h
    · exact fun hx => hs (pyStartsWith_mono (prefixOfString (by decide)) hx)
  simp only [normalize_image_data, if_pos (And.intro h1 h2), if_neg hnh, if_neg hnu,
    if_pos h3, herr]

/-- Witness for C2: 101 copies of `'A'` — long enough to be classified as
base64, but an invalid base64 payload (its length is 1 more than a multiple
of 4), so the decode raises and the item survives unchanged. -/
theorem C2_witness :
    normalize_image_data "http://base" ⟨"image", ⟨List.replicate 101 'A'⟩, none⟩
        (some "http://h") ⟨fun _ => "u", 0, []⟩ =
      (⟨"image", ⟨List.replicate 101 'A'⟩, none⟩, ⟨fun _ => "u", 0, []⟩) :=
  C2_normalize_swallows "http://base" ⟨"image", ⟨List.replicate 101 'A'⟩, none⟩
    (some "http://h") ⟨fun _ => "u", 0, []⟩ rfl (by decide)
    (Or.inr (by decide)) "Failed to save image: Invalid number of data characters" rfl

/-! ### Claim C1 — the classification in `normalize_image_data` -/

/-- Data satisfying the base64-branch condition starts with neither
`"http://"`/`"https://"` nor `"/uploads"`. -/
theorem base64_branch_excl {d : String}
    (h : pyStartsWith d "data:image/" ∨
      (100 < pyLen d ∧ ¬ pyStartsWith d "/" ∧ ¬ pyStartsWith d "http")) :
    ¬ (pyStartsWith d "http://" ∨ pyStartsWith d "https://") ∧
      ¬ pyStartsWith d "/uploads" := by
  rcases h with h | ⟨_, hs, hh⟩
  · refine ⟨?_, pyStartsWith_excl2 (by decide) (by decide) h⟩
    rintro (hx | hx)
    · exact pyStartsWith_excl2 (by decide) (by decide) h hx
    · exact pyStartsWith_excl2 (by decide) (by decide) h hx
  · refine ⟨?_, fun hx => hs (pyStartsWith_mono (prefixOfString (by decide)) hx)⟩
    rintro (hx | hx)
    · exact hh (pyStartsWith_mono (prefixOfString (by decide)) hx)
    · exact hh (pyStartsWith_mono (prefixOfString (by decide)) hx)

/-- C1 (amended): `normalize_image_data` leaves non-image or empty-data items
unchanged.  For an image item it strips the data; if the stripped data
contains both `"data:image/"` and `"/uploads/images/"` it is repaired to
`"/uploads/images/"` followed by the text after the first occurrence of
`"/uploads/images/"` cut at the next occurrence (to the end when there is
only one).  The result `d` is then classified in order: an absolute URL
(`"http://"`/`"https://"` prefix) leaves the item unchanged; a `"/uploads"`
prefix yields the item with the base URL prepended to `d`; data starting with
`"data:image/"`, or longer than 100 characters and not starting with `"/"` or
`"http"`, is decoded as base64 and, when decoding succeeds, saved to a fresh
file under `uploads/images` and replaced by that file's full URL (when
decoding fails the item is returned unchanged). -/
theorem C1_normalize_classification (BASE_URL : String) (item : Item) (bu : Option String)
    (w : World) :
    (¬ (item.type = "image" ∧ item.data ≠ "") →
      normalize_image_data BASE_URL item bu w = (item, w)) ∧
    (item.type = "image" → item.data ≠ "" →
      ∀ d : String,
        d = (if pyContains (pyStrip item.data) "data:image/" ∧
              pyContains (pyStrip item.data) "/uploads/images/" then
            "/uploads/images/" ++ specBetween (pyStrip item.data) "/uploads/images/"
          else pyStrip item.data) →
        ((pyStartsWith d "http://" ∨ pyStartsWith d "https://") →
          normalize_image_data BASE_URL item bu w = (item, w)) ∧
        (pyStartsWith d "/uploads" →
          normalize_image_data BASE_URL item bu w =
            ({ item with data := get_base_url_or_default BASE_URL bu ++ d }, w)) ∧
        ((pyStartsWith d "data:image/" ∨
            (100 < pyLen d ∧ ¬ pyStartsWith d "/" ∧ ¬ pyStartsWith d "http")) →
          (∀ bytes, pyB64decode (afterFirstComma d) = .ok bytes →
            normalize_image_data BASE_URL item bu w =
              ({ item with data := get_base_url_or_default BASE_URL bu ++ "/uploads/images/" ++
                  (w.uuidGen w.counter ++ "." ++ detect_image_format d) },
               ⟨w.uuidGen, w.counter + 1,
                 ("uploads/images/" ++ (w.uuidGen w.counter ++ "." ++ detect_image_format d),
                   bytes) :: w.files⟩)) ∧
          (∀ e, pyB64decode (afterFirstComma d) = .error e →
            normalize_image_data BASE_URL item bu w = (item, w)))) := by
  constructor
  · intro hno
    unfold normalize_image_data
    rw [if_neg hno]
  · intro h1 h2 d hd
    have hrep : repair_data (pyStrip item.data) = d := by
      rw [repair_eq_spec]
      exact hd.symm
    refine ⟨?_, ?_, ?_⟩
    · intro hhttp
      simp only [normalize_image_data, if_pos (And.intro h1 h2), hrep, if_pos hhttp]
    · intro hupl
      have hne : d ≠ "" := pyStartsWith_ne_empty (by decide) hupl
      have hnh : ¬ (pyStartsWith d "http://" ∨ pyStartsWith d "https://") := by
        rintro (hx | hx)
        · exact pyStartsWith_excl2 (by decide) (by decide) hupl hx
        · exact pyStartsWith_excl2 (by decide) (by decide) hupl hx
      have hslash : pyStartsWith d "/" := pyStartsWith_mono (prefixOfString (by decide)) hupl
      have hconv : convert_to_full_url BASE_URL d bu =
          get_base_url_or_default BASE_URL bu ++ d := by
        simp only [convert_to_full_url, if_neg hne, if_neg hnh, if_pos hslash]
      simp only [normalize_image_data, if_pos (And.intro h1 h2), hrep, if_neg hnh,
        if_pos hupl, hconv]
    · intro hb64
      obtain ⟨hnh, hnu⟩ := base64_branch_excl hb64
      constructor
      · intro bytes hok
        have hsave : save_base64_image BASE_URL d (detect_image_format d) bu w =
            .ok (get_base_url_or_default BASE_URL bu ++ "/uploads/images/" ++
                (w.uuidGen w.counter ++ "." ++ detect_image_format d),
              ⟨w.uuidGen, w.counter + 1,
                ("uploads/images/" ++ (w.uuidGen w.counter ++ "." ++ detect_image_format d),
                  bytes) :: w.files⟩) := by
          simp only [save_base64_image, hok]
        simp only [normalize_image_data, if_pos (And.intro h1 h2), hrep, if_neg hnh,
          if_neg hnu, if_pos hb64, hsave]
      · intro e herrp
        have hsave : save_base64_image BASE_URL d (detect_image_format d) bu w =
            .error ("Failed to save image: " ++ e) := by
          simp only [save_base64_image, herrp]
        simp only [normalize_image_data, if_pos (And.intro h1 h2), hrep, if_neg hnh,
          if_neg hnu, if_pos hb64, hsave]

/-- C1, counterexample: on data holding two occurrences of
`"/uploads/images/"` the repair keeps only the text up to the second
occurrence (`split("/uploads/images/")[1]`), not "the text after the first
occurrence" as claimed; and a long undecodable payload is returned unchanged
rather than "replaced by the file's full URL". -/
theorem C1_counterexample :
    (normalize_image_data "http://localhost:8000"
        ⟨"image", "data:image/png;base64,xx/uploads/images/a.png/uploads/images/b.png", none⟩
        (some "http://h") ⟨fun _ => "u", 0, []⟩).1.data = "http://h/uploads/images/a.png" ∧
    "http://h" ++ ("/uploads/images/" ++ specAfterFirst
        "data:image/png;base64,xx/uploads/images/a.png/uploads/images/b.png"
        "/uploads/images/") =
      "http://h/uploads/images/a.png/uploads/images/b.png" ∧
    (normalize_image_data "http://localhost:8000"
        ⟨"image", "data:image/png;base64,xx/uploads/images/a.png/uploads/images/b.png", none⟩
        (some "http://h") ⟨fun _ => "u", 0, []⟩).1.data ≠
      "http://h" ++ ("/uploads/images/" ++ specAfterFirst
        "data:image/png;base64,xx/uploads/images/a.png/uploads/images/b.png"
        "/uploads/images/") ∧
    (normalize_image_data "http://localhost:8000" ⟨"image", ⟨List.replicate 102 'A'⟩, none⟩
        (some "http://h") ⟨fun _ => "u", 0, []⟩).1 =
      ⟨"image", ⟨List.replicate 102 'A'⟩, none⟩ := by
  refine ⟨?_, ?_, ?_, ?_⟩ <;> decide

/-- Witness for C1 at a concrete relative-URL item. -/
theorem C1_witness :
    normalize_image_data "http://base" ⟨"image", "/uploads/images/pic.png", none⟩
        (some "http://h") ⟨fun _ => "u", 0, []⟩ =
      (⟨"image", get_base_url_or_default "http://base" (some "http://h") ++
          "/uploads/images/pic.png", none⟩,
       ⟨fun _ => "u", 0, []⟩) :=
  ((C1_normalize_classification "http://base" ⟨"image", "/uploads/images/pic.png", none⟩
      (some "http://h") ⟨fun _ => "u", 0, []⟩).2 rfl (by decide)
      "/uploads/images/pic.png" (by decide)).2.1 (by decide)

/-! ### Shape preservation (shared by C6 and C10) -/

/-- Everything an item rewrite may touch is its `"data"` field: `type` and
`name` are preserved, and a non-image or empty-data item is fully
preserved. -/
def ItemShapePreserved (src out : Item) : Prop :=
  out.type = src.type ∧ out.name = src.name ∧
    (¬ (src.type = "image" ∧ src.data ≠ "") → out = src)

theorem normalize_shape (BASE_URL : String) (it : Item) (bu : Option String) (w : World) :
    ItemShapePreserved it (normalize_image_data BASE_URL it bu w).1 := by
  simp only [normalize_image_data]
  by_cases h : it.type = "image" ∧ it.data ≠ ""
  · rw [if_pos h]
    split
    · exact ⟨rfl, rfl, fun hc => absurd h hc⟩
    · split
      · exact ⟨rfl, rfl, fun hc => absurd h hc⟩
      · split
        · split
          · exact ⟨rfl, rfl, fun hc => absurd h hc⟩
          · exact ⟨rfl, rfl, fun hc => absurd h hc⟩
        · exact ⟨rfl, rfl, fun hc => absurd h hc⟩
  · rw [if_neg h]
    exact ⟨rfl, rfl, fun _ => rfl⟩

theorem normalize_items_shape (BASE_URL : String) (bu : Option String) :
    ∀ (l : List Item) (w : World),
      List.Forall₂ ItemShapePreserved l (normalize_items BASE_URL bu l w).1 := by
  intro l
  induction l with
  | nil =>
    intro w
    exact List.Forall₂.nil
  | cons it rest ih =>
    intro w
    simp only [normalize_items]
    exact List.Forall₂.cons (normalize_shape BASE_URL it bu w) (ih _)

/-! ### Claim C10 — `serialize_log` preserves every scalar field -/

/-- C10: `serialize_log` copies `id`, `function_id`, `processing_time`,
`timestamp`, `metadata_info` and `created_at` verbatim; a null or empty
`inputs`/`outputs` column serializes to the empty list; and each serialized
input/output item differs from the stored one at most in its `"data"` field
(non-image and empty-data items are returned exactly as stored). -/
theorem C10_serialize_log_frame (BASE_URL : String) (log : StoredRecord) (bu : Option String)
    (w : World) :
    (serialize_log BASE_URL log bu w).1.id = log.id ∧
    (serialize_log BASE_URL log bu w).1.function_id = log.function_id ∧
    (serialize_log BASE_URL log bu w).1.processing_time = log.processing_time ∧
    (serialize_log BASE_URL log bu w).1.timestamp = log.timestamp ∧
    (serialize_log BASE_URL log bu w).1.metadata_info = log.metadata_info ∧
    (serialize_log BASE_URL log bu w).1.created_at = log.created_at ∧
    ((log.inputs = none ∨ log.inputs = some []) →
      (serialize_log BASE_URL log bu w).1.inputs = []) ∧
    ((log.outputs = none ∨ log.outputs = some []) →
      (serialize_log BASE_URL log bu w).1.outputs = []) ∧
    (∀ l, log.inputs = some l →
      List.Forall₂ ItemShapePreserved l (serialize_log BASE_URL log bu w).1.inputs) ∧
    (∀ l, log.outputs = some l →
      List.Forall₂ ItemShapePreserved l (serialize_log BASE_URL log bu w).1.outputs) := by
  refine ⟨rfl, rfl, rfl, rfl, rfl, rfl, ?_, ?_, ?_, ?_⟩
  · rintro (hin | hin) <;> simp only [serialize_log, hin, normalize_items]
  · rintro (hout | hout) <;> simp only [serialize_log, hout, normalize_items]
  · intro l hl
    simp only [serialize_log, hl]
    exact normalize_items_shape BASE_URL bu l w
  · intro l hl
    simp only [serialize_log, hl]
    exact normalize_items_shape BASE_URL bu l _

/-- Witness for C10 at a concrete stored record. -/
theorem C10_witness :
    (serialize_log "http://base"
        ⟨7, "fn", 1.5, "ts", none, some [⟨"text", "hello", none⟩], Json.null, "now"⟩
        (some "http://h") ⟨fun _ => "u", 0, []⟩).1.inputs = [] ∧
    List.Forall₂ ItemShapePreserved [⟨"text", "hello", none⟩]
      (serialize_log "http://base"
        ⟨7, "fn", 1.5, "ts", none, some [⟨"text", "hello", none⟩], Json.null, "now"⟩
        (some "http://h") ⟨fun _ => "u", 0, []⟩).1.outputs ∧
    (serialize_log "http://base"
        ⟨7, "fn", 1.5, "ts", none, some [⟨"text", "hello", none⟩], Json.null, "now"⟩
        (some "http://h") ⟨fun _ => "u", 0, []⟩).1.id = 7 ∧
    (serialize_log "http://base"
        ⟨7, "fn", 1.5, "ts", none, some [⟨"text", "hello", none⟩], Json.null, "now"⟩
        (some "http://h") ⟨fun _ => "u", 0, []⟩).1.processing_time = 1.5 :=
  ⟨(C10_serialize_log_frame "http://base"
      ⟨7, "fn", 1.5, "ts", none, some [⟨"text", "hello", none⟩], Json.null, "now"⟩
      (some "http://h") ⟨fun _ => "u", 0, []⟩).2.2.2.2.2.2.1 (Or.inl rfl),
   (C10_serialize_log_frame "http://base"
      ⟨7, "fn", 1.5, "ts", none, some [⟨"text", "hello", none⟩], Json.null, "now"⟩
      (some "http://h") ⟨fun _ => "u", 0, []⟩).2.2.2.2.2.2.2.2.2 [⟨"text", "hello", none⟩] rfl,
   (C10_serialize_log_frame "http://base"
      ⟨7, "fn", 1.5, "ts", none, some [⟨"text", "hello", none⟩], Json.null, "now"⟩
      (some "http://h") ⟨fun _ => "u", 0, []⟩).1,
   (C10_serialize_log_frame "http://base"
      ⟨7, "fn", 1.5, "ts", none, some [⟨"text", "hello", none⟩], Json.null, "now"⟩
      (some "http://h") ⟨fun _ => "u", 0, []⟩).2.2.1⟩

/-! ### Claim C6 — the `/api/log` handler stores non-image data verbatim -/

theorem log_process_item_shape (BASE_URL : String) (bu : Option String) (it : Item)
    (w : World) (out : Item) (w' : World)
    (h : log_process_item BASE_URL bu it w = .ok (out, w')) :
    ItemShapePreserved it out := by
  by_cases him : it.type = "image" ∧ it.data ≠ ""
  · by_cases hhttp : pyStartsWith it.data "http://" ∨ pyStartsWith it.data "https://"
    · simp only [log_process_item, if_pos him, if_pos hhttp, Except.ok.injEq,
        Prod.mk.injEq] at h
      rw [← h.1]
      exact ⟨rfl, rfl, fun hc => absurd him hc⟩
    · by_cases hupl : pyStartsWith it.data "/uploads"
      · simp only [log_process_item, if_pos him, if_neg hhttp, if_pos hupl,
          Except.ok.injEq, Prod.mk.injEq] at h
        rw [← h.1]
        exact ⟨rfl, rfl, fun hc => absurd him hc⟩
      · simp only [log_process_item, if_pos him, if_neg hhttp, if_neg hupl] at h
        cases hs : save_base64_image BASE_URL it.data (detect_image_format it.data) bu w with
        | ok p =>
          obtain ⟨url, w2⟩ := p
          rw [hs] at h
          simp only [Except.ok.injEq, Prod.mk.injEq] at h
          rw [← h.1]
          exact ⟨rfl, rfl, fun hc => absurd him hc⟩
        | error e =>
          rw [hs] at h
          simp at h
  · simp only [log_process_item, if_neg him, Except.ok.injEq, Prod.mk.injEq] at h
    rw [← h.1]
    exact ⟨rfl, rfl, fun _ => rfl⟩

theorem log_process_items_shape (BASE_URL : String) (bu : Option String) :
    ∀ (l : List Item) (w : World) (outs : List Item) (w' : World),
      log_process_items BASE_URL bu l w = .ok (outs, w') →
      List.Forall₂ ItemShapePreserved l outs := by
  intro l
  induction l with
  | nil =>
    intro w outs w' h
    simp only [log_process_items, Except.ok.injEq, Prod.mk.injEq] at h
    rw [← h.1]
    exact List.Forall₂.nil
  | cons it rest ih =>
    intro w outs w' h
    simp only [log_process_items] at h
    cases h1 : log_process_item BASE_URL bu it w with
    | error e =>
      simp only [h1] at h
      exact Except.noConfusion h
    | ok p =>
      obtain ⟨out, w1⟩ := p
      simp only [h1] at h
      cases h2 : log_process_items BASE_URL bu rest w1 with
      | error e =>
        simp only [h2] at h
        exact Except.noConfusion h
      | ok q =>
        obtain ⟨outs2, w2⟩ := q
        simp only [h2, Except.ok.injEq, Prod.mk.injEq] at h
        rw [← h.1]
        exact List.Forall₂.cons (log_process_item_shape BASE_URL bu it w out w1 h1)
          (ih w1 outs2 w2 h2)

/-- C6: whenever `/api/log` accepts a record, the stored row keeps
`function_id`, `processing_time`, `timestamp` and `metadata` equal to the
request's values, every non-image or empty-data item is stored exactly as
sent, and image items keep their `type` and `name` — only `data` may be
rewritten. -/
theorem C6_log_generation_frame (BASE_URL : String) (req : GenerationLogRequest)
    (base_url now : String) (db : DB) (w : World) (resp : LogResponse) (db' : DB) (w' : World)
    (h : log_generation BASE_URL req base_url now db w = .ok (resp, db', w')) :
    ∃ stored, db'.records = stored :: db.records ∧
      stored.function_id = req.functionId ∧
      stored.processing_time = req.processingTime ∧
      stored.timestamp = req.timestamp ∧
      stored.metadata_info = req.metadata ∧
      (∃ ins, stored.inputs = some ins ∧
        List.Forall₂ ItemShapePreserved (req.inputs.map InputData.toDict) ins) ∧
      (∃ outs, stored.outputs = some outs ∧
        List.Forall₂ ItemShapePreserved (req.outputs.map OutputData.toDict) outs) := by
  unfold log_generation at h
  cases h1 : log_process_items BASE_URL (some base_url) (req.inputs.map InputData.toDict) w with
  | error e =>
    simp only [h1] at h
    exact Except.noConfusion h
  | ok p =>
    obtain ⟨inputs_data, w1⟩ := p
    simp only [h1] at h
    cases h2 : log_process_items BASE_URL (some base_url)
        (req.outputs.map OutputData.toDict) w1 with
    | error e =>
      simp only [h2] at h
      exact Except.noConfusion h
    | ok q =>
      obtain ⟨outputs_data, w2⟩ := q
      simp only [h2, Except.ok.injEq, Prod.mk.injEq] at h
      obtain ⟨hresp, hdb, hw⟩ := h
      refine ⟨⟨db.nextId, req.functionId, req.processingTime, req.timestamp,
        some inputs_data, some outputs_data, req.metadata, now⟩, ?_, rfl, rfl, rfl, rfl,
        ⟨inputs_data, rfl,
          log_process_items_shape BASE_URL (some base_url) _ w inputs_data w1 h1⟩,
        ⟨outputs_data, rfl,
          log_process_items_shape BASE_URL (some base_url) _ w1 outputs_data w2 h2⟩⟩
      rw [← hdb]

/-- Witness for C6: a request holding one text input and one image output
that is already a full URL. -/
theorem C6_witness :
    ∃ stored : StoredRecord,
      (⟨5, [⟨4, "genfn", 2.5, "2024-01-01", some [⟨"text", "hi", some "n"⟩],
          some [⟨"image", "http://x/a.png", none⟩], Json.null, "now"⟩]⟩ : DB).records =
        stored :: (⟨4, []⟩ : DB).records ∧
      stored.function_id = "genfn" ∧
      stored.processing_time = (2.5 : Float) ∧
      stored.timestamp = "2024-01-01" ∧
      stored.metadata_info = Json.null ∧
      (∃ ins, stored.inputs = some ins ∧
        List.Forall₂ ItemShapePreserved
          ([(⟨"text", "hi", some "n"⟩ : InputData)].map InputData.toDict) ins) ∧
      (∃ outs, stored.outputs = some outs ∧
        List.Forall₂ ItemShapePreserved
          ([(⟨"image", "http://x/a.png"⟩ : OutputData)].map OutputData.toDict) outs) :=
  C6_log_generation_frame "http://base"
    ⟨"genfn", 2.5, "2024-01-01", [⟨"text", "hi", some "n"⟩], [⟨"image", "http://x/a.png"⟩],
      Json.null⟩
    "http://h" "now" ⟨4, []⟩ ⟨fun _ => "u", 0, []⟩
    ⟨"success", 4, "Generation details saved to SQLite"⟩
    ⟨5, [⟨4, "genfn", 2.5, "2024-01-01",
      some [⟨"text", "hi", some "n"⟩], some [⟨"image", "http://x/a.png", none⟩],
      Json.null, "now"⟩]⟩
    ⟨fun _ => "u", 0, []⟩ rfl

/-! ### Claim C3 — `/api/log` converts image payloads to file-backed URLs -/

/-- The path of a saved image file: `uploads/images/<uid>.<fmt>`. -/
def imagePath (uid fmt : String) : String := "uploads/images/" ++ (uid ++ "." ++ fmt)

/-- The claim's description of how `/api/log` stores one input/output item:
full URLs pass through, `/uploads` paths get the base URL prepended, anything
else is decoded as base64 and written to `uploads/images` under the next
uuid with the detected format as extension, the item's data becoming
`base_url ++ "/uploads/images/" ++ filename`. -/
def LogItemSpec (_BASE_URL base_url : String) (w : World) (src out : Item) (w' : World) :
    Prop :=
  (¬ (src.type = "image" ∧ src.data ≠ "") → out = src ∧ w' = w) ∧
  (src.type = "image" → src.data ≠ "" →
    ((pyStartsWith src.data "http://" ∨ pyStartsWith src.data "https://") →
      out = src ∧ w' = w) ∧
    (pyStartsWith src.data "/uploads" →
      out = { src with data := base_url ++ src.data } ∧ w' = w) ∧
    ((¬ (pyStartsWith src.data "http://" ∨ pyStartsWith src.data "https://") ∧
        ¬ pyStartsWith src.data "/uploads") →
      ∃ bytes, pyB64decode (afterFirstComma src.data) = .ok bytes ∧
        out = { src with data := base_url ++ "/uploads/images/" ++
            (w.uuidGen w.counter ++ "." ++ detect_image_format src.data) } ∧
        w' = ⟨w.uuidGen, w.counter + 1,
          (imagePath (w.uuidGen w.counter) (detect_image_format src.data), bytes) ::
            w.files⟩))

/-- The processing loop relates the request items to the stored items one by
one, threading the world. -/
inductive ItemsProcessed (BASE_URL base_url : String) :
    World → List Item → List Item → World → Prop where
  | nil (w : World) : ItemsProcessed BASE_URL base_url w [] [] w
  | cons {w : World} {it out : Item} {w' : World} {its outs : List Item} {w'' : World} :
      LogItemSpec BASE_URL base_url w it out w' →
      ItemsProcessed BASE_URL base_url w' its outs w'' →
      ItemsProcessed BASE_URL base_url w (it :: its) (out :: outs) w''

theorem log_process_item_spec (BASE_URL base_url : String) (hb : base_url ≠ "")
    (it : Item) (w : World) (out : Item) (w' : World)
    (h : log_process_item BASE_URL (some base_url) it w = .ok (out, w')) :
    LogItemSpec BASE_URL base_url w it out w' := by
  by_cases him : it.type = "image" ∧ it.data ≠ ""
  · by_cases hhttp : pyStartsWith it.data "http://" ∨ pyStartsWith it.data "https://"
    · simp only [log_process_item, if_pos him, if_pos hhttp, Except.ok.injEq,
        Prod.mk.injEq] at h
      refine ⟨fun hc => absurd him hc, fun _ _ => ⟨fun _ => ⟨h.1.symm, h.2.symm⟩, ?_, ?_⟩⟩
      · intro hupl
        exact absurd hhttp (fun hx => by
          rcases hx with hx | hx
          · exact pyStartsWith_excl2 (by decide) (by decide) hupl hx
          · exact pyStartsWith_excl2 (by decide) (by decide) hupl hx)
      · rintro ⟨hn, _⟩
        exact absurd hhttp hn
    · by_cases hupl : pyStartsWith it.data "/uploads"
      · have hne : it.data ≠ "" := him.2
        have hslash : pyStartsWith it.data "/" :=
          pyStartsWith_mono (prefixOfString (by decide)) hupl
        have hconv : convert_to_full_url BASE_URL it.data (some base_url) =
            base_url ++ it.data := by
          simp only [convert_to_full_url, if_neg hne, if_neg hhttp, if_pos hslash,
            get_base_url_or_default, if_neg hb]
        simp only [log_process_item, if_pos him, if_neg hhttp, if_pos hupl, hconv,
          Except.ok.injEq, Prod.mk.injEq] at h
        exact ⟨fun hc => absurd him hc, fun _ _ =>
          ⟨fun hx => absurd hx hhttp, fun _ => ⟨h.1.symm, h.2.symm⟩,
            fun hx => absurd hupl hx.2⟩⟩
      · simp only [log_process_item, if_pos him, if_neg hhttp, if_neg hupl] at h
        cases hdec : pyB64decode (afterFirstComma it.data) with
        | error e =>
          simp only [save_base64_image, hdec] at h
          exact Except.noConfusion h
        | ok bytes =>
          simp only [save_base64_image, hdec, get_base_url_or_default, if_neg hb,
            Except.ok.injEq, Prod.mk.injEq] at h
          refine ⟨fun hc => absurd him hc, fun _ _ =>
            ⟨fun hx => absurd hx hhttp, fun hx => absurd hx hupl,
              fun _ => ⟨bytes, hdec, h.1.symm, ?_⟩⟩⟩
          rw [← h.2]
          rfl
  · simp only [log_process_item, if_neg him, Except.ok.injEq, Prod.mk.injEq] at h
    refine ⟨fun _ => ⟨h.1.symm, h.2.symm⟩, fun h1 h2 => absurd ⟨h1, h2⟩ him⟩

theorem log_process_items_spec (BASE_URL base_url : String) (hb : base_url ≠ "") :
    ∀ (l : List Item) (w : World) (outs : List Item) (w' : World),
      log_process_items BASE_URL (some base_url) l w = .ok (outs, w') →
      ItemsProcessed BASE_URL base_url w l outs w' := by
  intro l
  induction l with
  | nil =>
    intro w outs w' h
    simp only [log_process_items, Except.ok.injEq, Prod.mk.injEq] at h
    rw [← h.1, ← h.2]
    exact ItemsProcessed.nil w
  | cons it rest ih =>
    intro w outs w' h
    simp only [log_process_items] at h
    cases h1 : log_process_item BASE_URL (some base_url) it w with
    | error e =>
      simp only [h1] at h
      exact Except.noConfusion h
    | ok p =>
      obtain ⟨out, w1⟩ := p
      simp only [h1] at h
      cases h2 : log_process_items BASE_URL (some base_url) rest w1 with
      | error e =>
        simp only [h2] at h
        exact Except.noConfusion h
      | ok q =>
        obtain ⟨outs2, w2⟩ := q
        simp only [h2, Except.ok.injEq, Prod.mk.injEq] at h
        rw [← h.1, ← h.2]
        exact ItemsProcessed.cons (log_process_item_spec BASE_URL base_url hb it w out w1 h1)
          (ih w1 outs2 w2 h2)

/-- Assumptions on the uuid4 stream that make filenames fresh and unique: the
draws are pairwise distinct, contain no dot (uuid4 hex is 32 hex digits), and
no undrawn uuid already names a file. -/
def SupplyFresh (w : World) : Prop :=
  (∀ m n : Nat, m ≠ n → w.uuidGen m ≠ w.uuidGen n) ∧
  (∀ n : Nat, '.' ∉ (w.uuidGen n).data) ∧
  (∀ n : Nat, w.counter ≤ n → ∀ pr ∈ w.files, ∀ fmt, pr.1 ≠ imagePath (w.uuidGen n) fmt)

/-- The files written between two worlds are new: pairwise distinct paths,
none of which existed before. -/
def FilesGrewFresh (w w' : World) : Prop :=
  ∃ nf, w'.files = nf ++ w.files ∧ (nf.map Prod.fst).Nodup ∧
    ∀ p ∈ nf.map Prod.fst, ∀ pr ∈ w.files, p ≠ pr.1

theorem append_dot_inj (a b c d : List Char) (ha : '.' ∉ a) (hc : '.' ∉ c)
    (h : a ++ '.' :: b = c ++ '.' :: d) : a = c ∧ b = d := by
  induction a generalizing c with
  | nil =>
    cases c with
    | nil => simpa using h
    | cons x xs =>
      simp only [List.nil_append, List.cons_append, List.cons.injEq] at h
      exact absurd (h.1 ▸ List.mem_cons_self x xs) hc
  | cons y ys ih =>
    cases c with
    | nil =>
      simp only [List.cons_append, List.nil_append, List.cons.injEq] at h
      exact absurd (h.1 ▸ List.mem_cons_self y ys) ha
    | cons x xs =>
      simp only [List.cons_append, List.cons.injEq] at h
      have hr := ih xs (fun hm => ha (List.mem_cons_of_mem _ hm))
        (fun hm => hc (List.mem_cons_of_mem _ hm)) h.2
      exact ⟨by rw [h.1, hr.1], hr.2⟩

theorem imagePath_inj {u1 u2 f1 f2 : String} (h1 : '.' ∉ u1.data) (h2 : '.' ∉ u2.data)
    (h : imagePath u1 f1 = imagePath u2 f2) : u1 = u2 := by
  have hd := congrArg String.data h
  simp only [imagePath, String.data_append] at hd
  have hd2 := List.append_cancel_left hd
  rw [List.append_assoc, List.append_assoc] at hd2
  rw [List.singleton_append, List.singleton_append] at hd2
  exact String.ext (append_dot_inj _ _ _ _ h1 h2 hd2).1

/-- What one processed item does to the world: nothing, or one fresh-uuid
file write. -/
theorem log_process_item_world (BASE_URL : String) (bu : Option String) (it : Item)
    (w : World) (out : Item) (w' : World)
    (h : log_process_item BASE_URL bu it w = .ok (out, w')) :
    w' = w ∨ (∃ bytes fmt, w' = ⟨w.uuidGen, w.counter + 1,
      (imagePath (w.uuidGen w.counter) fmt, bytes) :: w.files⟩) := by
  by_cases him : it.type = "image" ∧ it.data ≠ ""
  · by_cases hhttp : pyStartsWith it.data "http://" ∨ pyStartsWith it.data "https://"
    · simp only [log_process_item, if_pos him, if_pos hhttp, Except.ok.injEq,
        Prod.mk.injEq] at h
      exact Or.inl h.2.symm
    · by_cases hupl : pyStartsWith it.data "/uploads"
      · simp only [log_process_item, if_pos him, if_neg hhttp, if_pos hupl,
          Except.ok.injEq, Prod.mk.injEq] at h
        exact Or.inl h.2.symm
      · simp only [log_process_item, if_pos him, if_neg hhttp, if_neg hupl] at h
        cases hdec : pyB64decode (afterFirstComma it.data) with
        | error e =>
          simp only [save_base64_image, hdec] at h
          exact Except.noConfusion h
        | ok bytes =>
          simp only [save_base64_image, hdec, Except.ok.injEq, Prod.mk.injEq] at h
          refine Or.inr ⟨bytes, detect_image_format it.data, ?_⟩
          rw [← h.2]
          rfl
  · simp only [log_process_item, if_neg him, Except.ok.injEq, Prod.mk.injEq] at h
    exact Or.inl h.2.symm

theorem step_fresh {w w' : World} (hf : SupplyFresh w)
    (hw : w' = w ∨ ∃ bytes fmt, w' = ⟨w.uuidGen, w.counter + 1,
      (imagePath (w.uuidGen w.counter) fmt, bytes) :: w.files⟩) :
    SupplyFresh w' ∧ FilesGrewFresh w w' ∧
      w'.uuidGen = w.uuidGen ∧ w.counter ≤ w'.counter := by
  obtain ⟨hinj, hdot, hunused⟩ := hf
  rcases hw with rfl | ⟨bytes, fmt, rfl⟩
  · exact ⟨⟨hinj, hdot, hunused⟩, ⟨[], rfl, List.nodup_nil, by simp⟩, rfl, Nat.le_refl _⟩
  · refine ⟨⟨hinj, hdot, ?_⟩,
      ⟨[(imagePath (w.uuidGen w.counter) fmt, bytes)], rfl, by simp, ?_⟩, rfl,
      Nat.le_succ _⟩
    · intro n hn pr hpr fmt'
      have hn' : w.counter + 1 ≤ n := hn
      rcases List.mem_cons.mp hpr with rfl | hpr2
      · intro hcontra
        have := imagePath_inj (hdot w.counter) (hdot n) hcontra
        exact hinj w.counter n (by omega) this
      · exact hunused n (by omega) pr hpr2 fmt'
    · intro p hp pr hpr
      simp only [List.map_cons, List.map_nil, List.mem_singleton] at hp
      rw [hp]
      exact (hunused w.counter (Nat.le_refl _) pr hpr fmt).symm

theorem grew_trans {w w1 w2 : World} (h1 : FilesGrewFresh w w1) (h2 : FilesGrewFresh w1 w2) :
    FilesGrewFresh w w2 := by
  obtain ⟨nf1, he1, hn1, hd1⟩ := h1
  obtain ⟨nf2, he2, hn2, hd2⟩ := h2
  refine ⟨nf2 ++ nf1, by rw [he2, he1, List.append_assoc], ?_, ?_⟩
  · rw [List.map_append, List.nodup_append]
    refine ⟨hn2, hn1, ?_⟩
    intro p hp2 hp1
    obtain ⟨pr, hpr, hpr1⟩ := List.mem_map.mp hp1
    have hprw1 : pr ∈ w1.files := by
      rw [he1]
      exact List.mem_append_left _ hpr
    exact hd2 p hp2 pr hprw1 hpr1.symm
  · intro p hp pr hpr
    rw [List.map_append] at hp
    rcases List.mem_append.mp hp with hp2 | hp1
    · have hprw1 : pr ∈ w1.files := by
        rw [he1]
        exact List.mem_append_right _ hpr
      exact hd2 p hp2 pr hprw1
    · exact hd1 p hp1 pr hpr

theorem log_process_items_fresh (BASE_URL : String) (bu : Option String) :
    ∀ (l : List Item) (w : World) (outs : List Item) (w' : World),
      log_process_items BASE_URL bu l w = .ok (outs, w') → SupplyFresh w →
      SupplyFresh w' ∧ FilesGrewFresh w w' := by
  intro l
  induction l with
  | nil =>
    intro w outs w' h hf
    simp only [log_process_items, Except.ok.injEq, Prod.mk.injEq] at h
    rw [← h.2]
    exact ⟨hf, ⟨[], rfl, List.nodup_nil, by simp⟩⟩
  | cons it rest ih =>
    intro w outs w' h hf
    simp only [log_process_items] at h
    cases h1 : log_process_item BASE_URL bu it w with
    | error e =>
      simp only [h1] at h
      exact Except.noConfusion h
    | ok p =>
      obtain ⟨out, w1⟩ := p
      simp only [h1] at h
      cases h2 : log_process_items BASE_URL bu rest w1 with
      | error e =>
        simp only [h2] at h
        exact Except.noConfusion h
      | ok q =>
        obtain ⟨outs2, w2⟩ := q
        simp only [h2, Except.ok.injEq, Prod.mk.injEq] at h
        obtain ⟨hf1, hg1, _, _⟩ :=
          step_fresh hf (log_process_item_world BASE_URL bu it w out w1 h1)
        obtain ⟨hf2, hg2⟩ := ih w1 outs2 w2 h2 hf1
        rw [← h.2]
        exact ⟨hf2, grew_trans hg1 hg2⟩

/-- C3: whenever `/api/log` accepts a record, the stored row's inputs and
outputs are related item by item to the request's: full URLs kept, `/uploads`
paths prefixed with the base URL, and every other image payload decoded from
base64 and written under `uploads/images` with the next uuid and the detected
format as extension, the stored data becoming
`base_url ++ "/uploads/images/" ++ filename`; under the uuid4 freshness
assumptions all files written by the request are new and pairwise
distinct. -/
theorem C3_log_generation_images (BASE_URL : String) (req : GenerationLogRequest)
    (base_url now : String) (db : DB) (w : World) (resp : LogResponse) (db' : DB) (w' : World)
    (hb : base_url ≠ "")
    (h : log_generation BASE_URL req base_url now db w = .ok (resp, db', w')) :
    ∃ stored w1, db'.records = stored :: db.records ∧
      (∃ ins, stored.inputs = some ins ∧
        ItemsProcessed BASE_URL base_url w (req.inputs.map InputData.toDict) ins w1) ∧
      (∃ outs, stored.outputs = some outs ∧
        ItemsProcessed BASE_URL base_url w1 (req.outputs.map OutputData.toDict) outs w') ∧
      (SupplyFresh w → FilesGrewFresh w w') := by
  unfold log_generation at h
  cases h1 : log_process_items BASE_URL (some base_url) (req.inputs.map InputData.toDict) w with
  | error e =>
    simp only [h1] at h
    exact Except.noConfusion h
  | ok p =>
    obtain ⟨inputs_data, w1⟩ := p
    simp only [h1] at h
    cases h2 : log_process_items BASE_URL (some base_url)
        (req.outputs.map OutputData.toDict) w1 with
    | error e =>
      simp only [h2] at h
      exact Except.noConfusion h
    | ok q =>
      obtain ⟨outputs_data, w2⟩ := q
      simp only [h2, Except.ok.injEq, Prod.mk.injEq] at h
      obtain ⟨hresp, hdb, hw⟩ := h
      refine ⟨⟨db.nextId, req.functionId, req.processingTime, req.timestamp,
        some inputs_data, some outputs_data, req.metadata, now⟩, w1, ?_,
        ⟨inputs_data, rfl, log_process_items_spec BASE_URL base_url hb _ w inputs_data w1 h1⟩,
        ⟨outputs_data, rfl, ?_⟩, ?_⟩
      · rw [← hdb]
      · rw [← hw]
        exact log_process_items_spec BASE_URL base_url hb _ w1 outputs_data w2 h2
      · intro hf
        obtain ⟨hf1, hg1⟩ :=
          log_process_items_fresh BASE_URL (some base_url) _ w inputs_data w1 h1 hf
        obtain ⟨hf2, hg2⟩ :=
          log_process_items_fresh BASE_URL (some base_url) _ w1 outputs_data w2 h2 hf1
        rw [← hw]
        exact grew_trans hg1 hg2

/-- Witness for C3: one base64 image input (`"QUJD"`, decoding to the bytes
of `"ABC"`) is written to `uploads/images/a.png` and stored as
`http://h/uploads/images/a.png`. -/
theorem C3_witness :
    ∃ stored w1,
      (⟨1, [⟨0, "fn", 1.0, "ts", some [⟨"image", "http://h/uploads/images/a.png", none⟩],
          some [], Json.null, "now"⟩]⟩ : DB).records = stored :: (⟨0, []⟩ : DB).records ∧
      (∃ ins, stored.inputs = some ins ∧
        ItemsProcessed "http://base" "http://h" ⟨fun n => ⟨List.replicate (n + 1) 'a'⟩, 0, []⟩
          ([(⟨"image", "QUJD", none⟩ : InputData)].map InputData.toDict) ins w1) ∧
      (∃ outs, stored.outputs = some outs ∧
        ItemsProcessed "http://base" "http://h" w1
          (([] : List OutputData).map OutputData.toDict)
          outs ⟨fun n => ⟨List.replicate (n + 1) 'a'⟩, 1,
            [("uploads/images/a.png", [65, 66, 67])]⟩) ∧
      (SupplyFresh ⟨fun n => ⟨List.replicate (n + 1) 'a'⟩, 0, []⟩ →
        FilesGrewFresh ⟨fun n => ⟨List.replicate (n + 1) 'a'⟩, 0, []⟩
          ⟨fun n => ⟨List.replicate (n + 1) 'a'⟩, 1,
            [("uploads/images/a.png", [65, 66, 67])]⟩) :=
  C3_log_generation_images "http://base"
    ⟨"fn", 1.0, "ts", [⟨"image", "QUJD", none⟩], [], Json.null⟩ "http://h" "now"
    ⟨0, []⟩ ⟨fun n => ⟨List.replicate (n + 1) 'a'⟩, 0, []⟩
    ⟨"success", 0, "Generation details saved to SQLite"⟩
    ⟨1, [⟨0, "fn", 1.0, "ts", some [⟨"image", "http://h/uploads/images/a.png", none⟩],
      some [], Json.null, "now"⟩]⟩
    ⟨fun n => ⟨List.replicate (n + 1) 'a'⟩, 1, [("uploads/images/a.png", [65, 66, 67])]⟩
    (by decide) rfl

/-! ### Claim C4 — pagination of `/api/get_gcm_logs` -/

/-- Records ordered by id descending. -/
def SortedDescIds (l : List StoredRecord) : Prop := l.Chain' (fun a b => b.id ≤ a.id)

theorem insertDesc_perm (r : StoredRecord) (l : List StoredRecord) :
    (insertDesc r l).Perm (r :: l) := by
  induction l with
  | nil => exact List.Perm.refl _
  | cons x xs ih =>
    by_cases hx : x.id ≤ r.id
    · simp only [insertDesc, if_pos hx]
      exact List.Perm.refl _
    · simp only [insertDesc, if_neg hx]
      exact (ih.cons x).trans (List.Perm.swap r x xs)

theorem orderByIdDesc_perm (rs : List StoredRecord) : (orderByIdDesc rs).Perm rs := by
  induction rs with
  | nil => exact List.Perm.nil
  | cons x xs ih => exact (insertDesc_perm x _).trans (ih.cons x)

theorem insertDesc_sorted (r : StoredRecord) (l : List StoredRecord)
    (h : SortedDescIds l) : SortedDescIds (insertDesc r l) := by
  induction l with
  | nil => exact List.chain'_singleton _
  | cons x xs ih =>
    by_cases hx : x.id ≤ r.id
    · simp only [SortedDescIds, insertDesc, if_pos hx]
      exact List.chain'_cons.mpr ⟨hx, h⟩
    · simp only [SortedDescIds, insertDesc, if_neg hx]
      have hxs : SortedDescIds xs := h.tail
      have hins := ih hxs
      rw [List.chain'_cons']
      refine ⟨?_, hins⟩
      intro y hy
      cases xs with
      | nil =>
        simp only [insertDesc, List.head?_cons, Option.mem_def, Option.some.injEq] at hy
        subst hy
        omega
      | cons z zs =>
        by_cases hz : z.id ≤ r.id
        · simp only [insertDesc, if_pos hz, List.head?_cons, Option.mem_def,
            Option.some.injEq] at hy
          subst hy
          omega
        · simp only [insertDesc, if_neg hz, List.head?_cons, Option.mem_def,
            Option.some.injEq] at hy
          subst hy
          exact (List.chain'_cons.mp h).1

theorem orderByIdDesc_sorted (rs : List StoredRecord) : SortedDescIds (orderByIdDesc rs) := by
  induction rs with
  | nil => exact List.chain'_nil
  | cons x xs ih => exact insertDesc_sorted x _ ih

theorem serialize_logs_list_length (BASE_URL : String) (bu : Option String) :
    ∀ (l : List StoredRecord) (w : World),
      (serialize_logs_list BASE_URL bu l w).1.length = l.length := by
  intro l
  induction l with
  | nil =>
    intro w
    rfl
  | cons r rest ih =>
    intro w
    simp only [serialize_logs_list, List.length_cons, ih]

/-- C4 (amended): for every request with page `p ≥ 1` and size `s ≥ 0` the
response contains at most `s` records, namely the serializations of the
stored records ordered by id descending after skipping the first
`(p - 1) * s` of them; and `total_records` equals the total number of stored
records for every `p` and `s`. -/
theorem C4_get_logs_pagination (BASE_URL : String) (page size : Int) (base_url : String)
    (db : DB) (w : World) :
    (get_logs BASE_URL page size base_url db w).1.total_records = db.records.length ∧
    (1 ≤ page → 0 ≤ size →
      ∃ ordered, ordered.Perm db.records ∧ SortedDescIds ordered ∧
        (get_logs BASE_URL page size base_url db w).1.logs =
          (serialize_logs_list BASE_URL (some base_url)
            ((ordered.drop ((page - 1) * size).toNat).take size.toNat) w).1 ∧
        (get_logs BASE_URL page size base_url db w).1.logs.length ≤ size.toNat) := by
  refine ⟨rfl, ?_⟩
  intro hp hs
  refine ⟨orderByIdDesc db.records, orderByIdDesc_perm _, orderByIdDesc_sorted _, ?_, ?_⟩
  · have hsql : sqlOffsetLimit (orderByIdDesc db.records) ((page - 1) * size) size =
        ((orderByIdDesc db.records).drop ((page - 1) * size).toNat).take size.toNat := by
      unfold sqlOffsetLimit
      by_cases hskip : 0 < (page - 1) * size
      · simp only [if_pos hs, if_pos hskip]
      · simp only [if_pos hs, if_neg hskip]
        rw [Int.toNat_of_nonpos (not_lt.mp hskip), List.drop_zero]
    simp only [get_logs]
    rw [hsql]
  · simp only [get_logs]
    rw [serialize_logs_list_length]
    unfold sqlOffsetLimit
    by_cases hskip : 0 < (page - 1) * size
    · simp only [if_pos hs, if_pos hskip]
      rw [List.length_take]
      exact min_le_left _ _
    · simp only [if_pos hs, if_neg hskip]
      rw [List.length_take]
      exact min_le_left _ _

/-- C4, counterexample: `page` and `size` are unconstrained ints; with
`size = -1` SQLite's `LIMIT -1` means "no limit", so one stored record is
returned although the claim promises at most `size` records. -/
theorem C4_counterexample :
    (get_logs "http://base" 1 (-1) "http://h"
        ⟨2, [⟨1, "f", 0.5, "t", some [], some [], Json.null, "c"⟩]⟩
        ⟨fun _ => "u", 0, []⟩).1.size = -1 ∧
    (get_logs "http://base" 1 (-1) "http://h"
        ⟨2, [⟨1, "f", 0.5, "t", some [], some [], Json.null, "c"⟩]⟩
        ⟨fun _ => "u", 0, []⟩).1.logs.length = 1 ∧
    ¬ (((get_logs "http://base" 1 (-1) "http://h"
        ⟨2, [⟨1, "f", 0.5, "t", some [], some [], Json.null, "c"⟩]⟩
        ⟨fun _ => "u", 0, []⟩).1.logs.length : Int) ≤
      (get_logs "http://base" 1 (-1) "http://h"
        ⟨2, [⟨1, "f", 0.5, "t", some [], some [], Json.null, "c"⟩]⟩
        ⟨fun _ => "u", 0, []⟩).1.size) := by
  refine ⟨?_, ?_, ?_⟩ <;> decide

/-- Witness for C4 at page 2, size 1 over two stored records. -/
theorem C4_witness :
    ∃ ordered, ordered.Perm
        (⟨3, [⟨1, "f1", 0.5, "t1", some [], some [], Json.null, "c1"⟩,
          ⟨2, "f2", 1.5, "t2", some [], some [], Json.null, "c2"⟩]⟩ : DB).records ∧
      SortedDescIds ordered ∧
      (get_logs "http://base" 2 1 "http://h"
          ⟨3, [⟨1, "f1", 0.5, "t1", some [], some [], Json.null, "c1"⟩,
            ⟨2, "f2", 1.5, "t2", some [], some [], Json.null, "c2"⟩]⟩
          ⟨fun _ => "u", 0, []⟩).1.logs =
        (serialize_logs_list "http://base" (some "http://h")
          ((ordered.drop (((2 : Int) - 1) * 1).toNat).take (1 : Int).toNat)
          ⟨fun _ => "u", 0, []⟩).1 ∧
      (get_logs "http://base" 2 1 "http://h"
          ⟨3, [⟨1, "f1", 0.5, "t1", some [], some [], Json.null, "c1"⟩,
            ⟨2, "f2", 1.5, "t2", some [], some [], Json.null, "c2"⟩]⟩
          ⟨fun _ => "u", 0, []⟩).1.logs.length ≤ (1 : Int).toNat :=
  (C4_get_logs_pagination "http://base" 2 1 "http://h"
    ⟨3, [⟨1, "f1", 0.5, "t1", some [], some [], Json.null, "c1"⟩,
      ⟨2, "f2", 1.5, "t2", some [], some [], Json.null, "c2"⟩]⟩
    ⟨fun _ => "u", 0, []⟩).2 (by decide) (by decide)

end Tamilan
